import Mathlib

/-!
# Simple Go web server: session manager, handlers and routing

A shallow embedding of `main.go`.

* Go strings are modelled by Lean strings, `[]byte` by `List UInt8`.
* A `time.Time` is modelled by the instant it denotes, an unbounded integer
  number of nanoseconds since the Unix epoch, so `Add` and `Before` are exact;
  only `UnixNano`, which returns an `int64`, wraps. `time.Now()` is an explicit
  argument, one per call in the source, in call order.
* The mutex of `SessionManager` serialises the three operations; each of them
  is modelled as one atomic state transition, the store being passed in and
  returned explicitly.
* The response written to an `http.ResponseWriter` is modelled by the record
  of what was written: status, `Location`, `Content-Type`, cookies and body.
* The functions of `net/http`, `path`, `path/filepath`, `fmt` and `time` that the
  program calls are modelled after their behaviour on the arguments the program
  passes; the embedded files and the MIME table are parameters (`Env`); the
  template engine is kept symbolic (`Body.template`).
* Routing follows the `http.ServeMux` of Go 1.22 and later: the mux cleans the
  escaped path of the request, `r.URL.EscapedPath()`, and matches it segment by
  segment, each segment unescaped, a literal before the wildcard of a trailing
  slash. The path `r.URL.Path` is the escaped path unescaped as a whole.
-/

namespace SimpleGoWebServer

/-! ## Time -/

/-- An instant: nanoseconds since the Unix epoch. -/
abbrev Time := Int

/-- The duration `1 * time.Hour`, in nanoseconds. -/
def Hour : Int := 3600000000000

/-- The zero `time.Time` (January 1, year 1, 00:00 UTC). -/
def zeroTime : Time := -62135596800000000000

/-- The method `t.Add(d)`. -/
def Time.Add (t : Time) (d : Int) : Time := t + d

/-- The method `t.Before(u)`: the instant `t` is strictly earlier than `u`. -/
def Time.Before (t u : Time) : Bool := decide (t < u)

/-- The method `t.UnixNano()`: the nanosecond count as an `int64`, wrapping
around outside the representable range. -/
def Time.UnixNano (t : Time) : Int :=
  (t + 9223372036854775808) % 18446744073709551616 - 9223372036854775808

/-- The call `fmt.Sprintf("%d", n)`: the decimal rendering of an integer. -/
def Sprintf_d (n : Int) : String := toString n

/-! ## Session store -/

/-- The struct `Session`. -/
structure Session where
  Username : String
  Expiry : Time
deriving DecidableEq, Repr

/-- The zero value `Session{}`. -/
def Session.zero : Session := { Username := "", Expiry := zeroTime }

/-- The struct `SessionManager`: the map from session id to session. -/
structure SessionManager where
  sessions : AList (fun _ : String => Session)

/-- Equality of stores is decided on their entries. -/
instance : DecidableEq SessionManager := fun a b =>
  decidable_of_iff (a.sessions.entries = b.sessions.entries)
    ⟨fun h => by
      cases a with
      | mk sa =>
        cases b with
        | mk sb => exact congrArg SessionManager.mk (AList.ext h),
     fun h => by rw [h]⟩

/-- The function `NewSessionManager`. -/
def NewSessionManager : SessionManager := { sessions := ∅ }

/-- The number of entries of the map, `len(sm.sessions)`. -/
def SessionManager.size (sm : SessionManager) : Nat := sm.sessions.entries.length

/-- The method `CreateSession`. `now₁` is the clock read for the session id,
`now₂` the clock read for the expiry. Returns the id and the new store. -/
def SessionManager.CreateSession (sm : SessionManager) (username : String)
    (now₁ now₂ : Time) : String × SessionManager :=
  let sessionID := Sprintf_d (Time.UnixNano now₁)
  (sessionID,
    { sessions := sm.sessions.insert sessionID
        { Username := username, Expiry := Time.Add now₂ Hour } })

/-- The method `GetSession`. Returns the session, the flag, and the store as the
method leaves it. -/
def SessionManager.GetSession (sm : SessionManager) (sessionID : String)
    (now : Time) : (Session × Bool) × SessionManager :=
  match sm.sessions.lookup sessionID with
  | none => ((Session.zero, false), sm)
  | some session =>
    if Time.Before session.Expiry now then ((Session.zero, false), sm)
    else ((session, true), sm)

/-- The method `InvalidateSession`. -/
def SessionManager.InvalidateSession (sm : SessionManager) (sessionID : String) :
    SessionManager :=
  { sessions := sm.sessions.erase sessionID }

/-- A run of `CreateSession` calls on the store, one after the other; each call
is given by its username and its two clock reads. -/
def SessionManager.createAll (sm : SessionManager) :
    List (String × Time × Time) → SessionManager
  | [] => sm
  | c :: cs => SessionManager.createAll (sm.CreateSession c.1 c.2.1 c.2.2).2 cs

/-- The session ids that a run of `CreateSession` calls hands out. -/
def tokensOf (calls : List (String × Time × Time)) : List String :=
  calls.map (fun c => Sprintf_d (Time.UnixNano c.2.1))

/-! ## HTTP model -/

/-- The fields of `http.Cookie` that the program uses. -/
structure Cookie where
  Name : String
  Value : String
  Expires : Time
deriving DecidableEq, Repr

/-- The parts of an `http.Request` that the handlers read: the method, the path
`r.URL.Path`, the parsed form (values in the order `r.FormValue` consults them)
and the cookies sent with the request, in header order. -/
structure Request where
  Method : String
  Path : String
  Form : List (String × String)
  Cookies : List Cookie
deriving DecidableEq, Repr

/-- The method `r.FormValue(key)`: the first value of the key, `""` if none. -/
def Request.FormValue (r : Request) (key : String) : String :=
  match r.Form.find? (fun kv => decide (kv.1 = key)) with
  | some kv => kv.2
  | none => ""

/-- The method `r.Cookie(name)`: the first cookie of that name; `none` stands for
the error `http.ErrNoCookie`. -/
def Request.Cookie (r : Request) (name : String) : Option Cookie :=
  if name = "" then none else r.Cookies.find? (fun c => decide (c.Name = name))

/-- What a handler wrote as the response body. -/
inductive Body where
  | empty
  | bytes (data : List UInt8)
  | text (s : String)
  | redirectNote (url : String) (code : Nat)
  | template (file : String) (data : Session)
deriving DecidableEq, Repr

/-- The response as the handler leaves it in the `http.ResponseWriter`. The
status is 200 unless `WriteHeader` set another one. -/
structure Response where
  Status : Nat
  Location : Option String
  ContentType : Option String
  SetCookie : List Cookie
  Body : Body
deriving DecidableEq, Repr

/-- A fresh response writer. -/
def Response.new : Response :=
  { Status := 200, Location := none, ContentType := none, SetCookie := [],
    Body := Body.empty }

def StatusFound : Nat := 302
def StatusUnauthorized : Nat := 401
def StatusNotFound : Nat := 404
def MethodPost : String := "POST"

/-- The function `http.SetCookie(w, cookie)`. -/
def SetCookie (w : Response) (c : Cookie) : Response :=
  { w with SetCookie := w.SetCookie ++ [c] }

/-- The function `http.Redirect(w, r, url, code)` for a rooted, clean `url`
(the two that the program passes, `/login` and `/admin`, are): it sets the
`Location` header and the status code; for `GET` and `HEAD` requests without
a content type it also sets one, and for `GET` it writes a short hyperlink note
as the body. -/
def Redirect (w : Response) (r : Request) (url : String) (code : Nat) : Response :=
  let hadCT := w.ContentType.isSome
  { w with
    Location := some url
    ContentType :=
      if !hadCT && (r.Method == "GET" || r.Method == "HEAD") then
        some "text/html; charset=utf-8"
      else w.ContentType
    Status := code
    Body := if !hadCT && r.Method == "GET" then Body.redirectNote url code else w.Body }

/-- The function `http.NotFound(w, r)`. -/
def NotFound (w : Response) : Response :=
  { w with
    ContentType := some "text/plain; charset=utf-8"
    Status := StatusNotFound
    Body := Body.text "404 page not found\n" }

/-- What the handlers take from outside `main.go`: the embedded file set
`staticFiles` (`ReadFile` gives `none` when the read returns an error) and the
system MIME table behind `mime.TypeByExtension`. -/
structure Env where
  ReadFile : String → Option (List UInt8)
  TypeByExtension : String → String

/-- The package variables `username` and `password`. -/
def username : String := "admin"
def password : String := "password"

/-! ## Handlers -/

/-- The function `serveIndex`. A failed read leaves `data` empty. -/
def serveIndex (env : Env) (_r : Request) : Response :=
  let data := (env.ReadFile "static/index.html").getD []
  let w := { Response.new with ContentType := some "text/html" }
  { w with Body := Body.bytes data }

/-- The function `serveLogin`, on the store `sm`. The three clock reads are, in
order, the two of `CreateSession` and the one of the cookie expiry. -/
def serveLogin (env : Env) (sm : SessionManager) (r : Request)
    (now₁ now₂ now₃ : Time) : Response × SessionManager :=
  if r.Method = MethodPost then
    if r.FormValue "username" = username ∧ r.FormValue "password" = password then
      let created := sm.CreateSession username now₁ now₂
      let sessionID := created.1
      let w := SetCookie Response.new
        { Name := "session_id", Value := sessionID, Expires := Time.Add now₃ Hour }
      (Redirect w r "/admin" StatusFound, created.2)
    else
      (Redirect Response.new r "/login" StatusUnauthorized, sm)
  else
    let data := (env.ReadFile "static/login.html").getD []
    let w := { Response.new with ContentType := some "text/html" }
    ({ w with Body := Body.bytes data }, sm)

/-- The function `serveAdmin`, on the store `sm`, `now` being the clock read of
`GetSession`. The body `Body.template file session` stands for what executing
the template parsed from the embedded `file` on `session` writes; the handler
discards the errors of both steps. -/
def serveAdmin (sm : SessionManager) (r : Request) (now : Time) :
    Response × SessionManager :=
  match r.Cookie "session_id" with
  | none => (Redirect Response.new r "/login" StatusFound, sm)
  | some cookie =>
    let got := sm.GetSession cookie.Value now
    let session := got.1.1
    let valid := got.1.2
    if !valid then (Redirect Response.new r "/login" StatusFound, got.2)
    else ({ Response.new with Body := Body.template "static/admin.html" session }, got.2)

/-- The slice expression `s[n:]` on a string, `n` counting bytes; `none` stands
for the run-time panic when `n` exceeds the length. -/
def sliceFrom (s : String) (n : Nat) : Option String :=
  if n ≤ s.utf8ByteSize then some (s.extract ⟨n⟩ s.endPos) else none

/-- The scan of `filepath.Ext` from the end of the path: `rev` is what is left
to scan, last character first, `acc` the characters already passed. -/
def Ext.scan : List Char → List Char → List Char
  | [], _ => []
  | c :: rev, acc =>
    if c = '/' then []
    else if c = '.' then c :: acc
    else Ext.scan rev (c :: acc)

/-- The function `filepath.Ext`: the suffix of the last path element that
starts at its last dot, `""` if it has no dot. -/
def Ext (path : String) : String := ⟨Ext.scan path.data.reverse []⟩

/-- The function `serveStatic`; `none` stands for the panic of the slice. -/
def serveStatic (env : Env) (r : Request) : Option Response :=
  match sliceFrom r.Path "/static/".utf8ByteSize with
  | none => none
  | some filePath =>
    match env.ReadFile ("static/" ++ filePath) with
    | none => some (NotFound Response.new)
    | some data =>
      let ext := Ext filePath
      let mimeType := env.TypeByExtension ext
      let mimeType := if mimeType = "" then "application/octet-stream" else mimeType
      let w := { Response.new with ContentType := some mimeType }
      some { w with Body := Body.bytes data }

/-- An embedded set with the single file `static/style.css`, and a MIME table
that knows the extension `.css` only. -/
def demoEnv : Env :=
  { ReadFile := fun p => if p = "static/style.css" then some [98, 111] else none
    TypeByExtension := fun e => if e = ".css" then "text/css; charset=utf-8" else "" }

/-! ## Routing -/

/-- The four handler functions of the program. -/
inductive HandlerFunc where
  | serveIndex
  | serveLogin
  | serveAdmin
  | serveStatic
deriving DecidableEq, Repr

/-- The elements of a path: the pieces between its slashes. -/
def pathElements : List Char → List (List Char)
  | [] => [[]]
  | c :: cs =>
    if c = '/' then [] :: pathElements cs
    else
      match pathElements cs with
      | e :: es => (c :: e) :: es
      | [] => [[c]]

/-- One element in the loop of `path.Clean` on a rooted path: an empty element
and `.` are dropped, `..` removes the element before it (none at the root),
any other element is kept. -/
def Clean.step (kept : List (List Char)) (e : List Char) : List (List Char) :=
  if e = [] ∨ e = ['.'] then kept
  else if e = ['.', '.'] then kept.dropLast
  else kept ++ [e]

/-- The function `path.Clean` on a rooted path: the slash, then the kept
elements with one slash between them. -/
def CleanRooted (p : List Char) : List Char :=
  '/' :: List.intercalate ['/'] ((pathElements p).foldl Clean.step [])

/-- The function `http.cleanPath`: the canonical form of a path, rooted, without
`.`, `..` and repeated slashes, a trailing slash kept. -/
def cleanPath (p : String) : String :=
  if p = "" then "/"
  else
    let p' := if p.data.head? = some '/' then p.data else '/' :: p.data
    let np := CleanRooted p'
    if p'.getLast? = some '/' ∧ np ≠ ['/'] then ⟨np ++ ['/']⟩ else ⟨np⟩

/-- The test `ishex` of `net/url`. -/
def ishex (c : Char) : Bool :=
  ('0' ≤ c && c ≤ '9') || ('a' ≤ c && c ≤ 'f') || ('A' ≤ c && c ≤ 'F')

/-- The function `unhex` of `net/url`: the value of a hexadecimal digit. -/
def unhex (c : Char) : Nat :=
  if '0' ≤ c ∧ c ≤ '9' then c.toNat - '0'.toNat
  else if 'a' ≤ c ∧ c ≤ 'f' then c.toNat - 'a'.toNat + 10
  else if 'A' ≤ c ∧ c ≤ 'F' then c.toNat - 'A'.toNat + 10
  else 0

/-- The function `url.PathUnescape`: every `%XX` is replaced by the byte `XX`;
`none` stands for the error on a `%` that two hexadecimal digits do not follow.
A byte is kept as the character of its code. -/
def PathUnescape : List Char → Option (List Char)
  | [] => some []
  | c :: rest =>
    if c = '%' then
      match rest with
      | a :: b :: rest' =>
        if ishex a && ishex b then
          (PathUnescape rest').map (fun r => Char.ofNat (unhex a * 16 + unhex b) :: r)
        else none
      | _ => none
    else (PathUnescape rest).map (fun r => c :: r)

/-- The function `pathUnescape` of `net/http`: the unescaped string, the string
itself when it cannot be unescaped. -/
def pathUnescape (s : List Char) : List Char := (PathUnescape s).getD s

/-- The path `r.URL.Path` of a request whose escaped path, `r.URL.EscapedPath()`,
is `escapedPath`: its unescaped form. -/
def URLPath (escapedPath : String) : String := ⟨pathUnescape escapedPath.data⟩

/-- An escaped path as a request carries it: empty (a request target without a
path), `*`, or rooted; and with well-formed escapes. -/
def ValidEscapedPath (escapedPath : String) : Prop :=
  (escapedPath = "" ∨ escapedPath = "*" ∨ escapedPath.data.head? = some '/') ∧
    (PathUnescape escapedPath.data).isSome = true

instance (escapedPath : String) : Decidable (ValidEscapedPath escapedPath) :=
  inferInstanceAs (Decidable (_ ∧ _))

/-- A segment of a pattern that has no wildcard in braces: a literal, or the
multi wildcard that a trailing slash stands for. -/
inductive Segment where
  | lit (s : String)
  | multi
deriving DecidableEq, Repr

/-- The segments that `parsePattern` gives for a pattern without method, host
and braces: the pieces after each slash are literals, an empty last piece (a
trailing slash) is the multi wildcard. -/
def patternSegments : List (List Char) → List Segment
  | [] => []
  | [e] => [if e = [] then Segment.multi else Segment.lit ⟨pathUnescape e⟩]
  | e :: es => Segment.lit ⟨pathUnescape e⟩ :: patternSegments es

/-- The function `parsePattern`, on such a pattern. -/
def parsePattern (pattern : String) : List Segment :=
  patternSegments (pathElements (pattern.data.drop 1))

/-- A registered pattern on the way down the routing tree: the segments still to
match below the current node, all the segments of the pattern, the handler. -/
structure Entry where
  remaining : List Segment
  segments : List Segment
  handler : HandlerFunc
deriving DecidableEq, Repr

/-- The state of `http.ServeMux`: the registered patterns. All of them are
without method and host, so they sit in one path tree. -/
structure ServeMux where
  patterns : List Entry
deriving DecidableEq, Repr

/-- The method `mux.HandleFunc(pattern, handler)` for a pattern that conflicts
with none registered before. -/
def ServeMux.HandleFunc (mux : ServeMux) (pattern : String) (h : HandlerFunc) : ServeMux :=
  { patterns := mux.patterns ++
      [{ remaining := parsePattern pattern, segments := parsePattern pattern, handler := h }] }

/-- The default mux after the four `http.HandleFunc` calls of `main`. -/
def mainMux : ServeMux :=
  ((((ServeMux.mk []).HandleFunc "/" HandlerFunc.serveIndex).HandleFunc
    "/login" HandlerFunc.serveLogin).HandleFunc
    "/admin" HandlerFunc.serveAdmin).HandleFunc "/static/" HandlerFunc.serveStatic

/-- The segments that successive calls of `firstSegment` cut from a path, given
its pieces: each piece unescaped, an empty last piece (a trailing slash) read
as the segment `/`. -/
def segmentsOfPieces : List (List Char) → List String
  | [] => []
  | [e] => [if e = [] then "/" else ⟨pathUnescape e⟩]
  | e :: es => ⟨pathUnescape e⟩ :: segmentsOfPieces es

/-- The segments of a path that begins with a slash. -/
def segmentsOf (path : String) : List String :=
  segmentsOfPieces (pathElements (path.data.drop 1))

/-- The child node for a literal segment: the patterns that continue with this
literal. -/
def childEntries (node : List Entry) (seg : String) : List Entry :=
  node.filterMap (fun e =>
    match e.remaining with
    | Segment.lit s :: rest => if s = seg then some { e with remaining := rest } else none
    | _ => none)

/-- The method `routingNode.matchPath`, the node given by the patterns that pass
through it and the path by its segments: at the end of the path the pattern of
the node itself; before it the literal child first, then the multi wildcard
child. -/
def matchSegments : List Entry → List String → Option Entry
  | node, [] => node.find? (fun e => decide (e.remaining = []))
  | node, seg :: rest =>
    match matchSegments (childEntries node seg) rest with
    | some e => some e
    | none => node.find? (fun e => decide (e.remaining = [Segment.multi]))

/-- The method `mux.tree.match(host, method, path)`: the root is an interior
node, so the empty path matches nothing. -/
def ServeMux.treeMatch (mux : ServeMux) (path : String) : Option Entry :=
  if path = "" then none else matchSegments mux.patterns (segmentsOf path)

/-- The function `exactMatch(n, path)`. -/
def exactMatch (n : Option Entry) (path : String) : Bool :=
  match n with
  | none => false
  | some e =>
    if e.segments.getLast? ≠ some Segment.multi then true
    else if path.data ≠ [] ∧ path.data.getLast? ≠ some '/' then false
    else decide (e.segments.length = path.data.count '/')

/-- What the server selects for a request: one of the handlers of the program,
the 301 redirect of the mux to another path, `http.NotFoundHandler()` (the
default 404), the 400 of the mux for the request target `*`, or the answer of
the server itself to `OPTIONS *`. -/
inductive Route where
  | handler (h : HandlerFunc)
  | redirect (path : String)
  | notFound
  | badRequest
  | options
deriving DecidableEq, Repr

/-- The method `mux.matchOrRedirect(host, method, path, u)`; `u` is the path
`u.Path`, `none` for a nil `u`. The error case stands for the redirect and
carries the path of its URL. -/
def ServeMux.matchOrRedirect (mux : ServeMux) (path : String) (u : Option String) :
    Except String (Option Entry) :=
  let n := mux.treeMatch path
  match u with
  | none => Except.ok n
  | some uPath =>
    if !exactMatch n path && !(path.data.getLast? = some '/') then
      let path' := path ++ "/"
      if exactMatch (mux.treeMatch path') path' then Except.error (cleanPath uPath ++ "/")
      else Except.ok n
    else Except.ok n

/-- The end of `mux.findHandler`: the handler of the node, the default 404 for
no node (no pattern has a method, so never a 405). -/
def nodeRoute : Option Entry → Route
  | some e => Route.handler e.handler
  | none => Route.notFound

/-- The method `mux.findHandler(r)`, on the method of the request and its escaped
path `r.URL.EscapedPath()`. A `CONNECT` request is matched as it is; the path
of any other request is cleaned first, and a request whose path is not clean is
redirected. -/
def ServeMux.findHandler (mux : ServeMux) (method escapedPath : String) : Route :=
  if method = "CONNECT" then
    match mux.matchOrRedirect escapedPath (some (URLPath escapedPath)) with
    | Except.error u => Route.redirect u
    | Except.ok _ =>
      match mux.matchOrRedirect escapedPath none with
      | Except.error u => Route.redirect u
      | Except.ok n => nodeRoute n
  else
    let path := cleanPath escapedPath
    match mux.matchOrRedirect path (some (URLPath escapedPath)) with
    | Except.error u => Route.redirect u
    | Except.ok n =>
      if path ≠ escapedPath then Route.redirect path
      else nodeRoute n

/-- What the server of `main` selects for a request, given its method, its
request target `r.RequestURI` and its escaped path: the server answers
`OPTIONS *` itself, `mux.ServeHTTP` answers any other request for `*` with 400,
and `mux.findHandler` selects for the rest. -/
def dispatch (method requestURI escapedPath : String) : Route :=
  if requestURI = "*" then
    if method = "OPTIONS" then Route.options else Route.badRequest
  else mainMux.findHandler method escapedPath

/-! ## Decimal rendering is injective -/

theorem toDigitsCore_acc (b : Nat) : ∀ (fuel n : Nat) (ds : List Char),
    Nat.toDigitsCore b fuel n ds = Nat.toDigitsCore b fuel n [] ++ ds := by
  intro fuel
  induction fuel with
  | zero => intro n ds; simp [Nat.toDigitsCore]
  | succ f ih =>
    intro n ds
    simp only [Nat.toDigitsCore]
    by_cases h : n / b = 0
    · simp [h]
    · simp only [h, if_false]
      rw [ih (n / b) (Nat.digitChar (n % b) :: ds), ih (n / b) [Nat.digitChar (n % b)]]
      simp

theorem toDigitsCore_fuel : ∀ (fuel n : Nat), n < fuel → ∀ fuel', n < fuel' →
    Nat.toDigitsCore 10 fuel n [] = Nat.toDigitsCore 10 fuel' n [] := by
  intro fuel
  induction fuel with
  | zero => intro n h; omega
  | succ f ih =>
    intro n h fuel' h'
    cases fuel' with
    | zero => omega
    | succ f' =>
      simp only [Nat.toDigitsCore]
      by_cases h0 : n / 10 = 0
      · simp [h0]
      · simp only [h0, if_false]
        rw [toDigitsCore_acc 10 f, toDigitsCore_acc 10 f']
        rw [ih (n / 10) (by omega) f' (by omega)]

theorem toDigits_step (n : Nat) :
    Nat.toDigits 10 n =
      if n < 10 then [Nat.digitChar n]
      else Nat.toDigits 10 (n / 10) ++ [Nat.digitChar (n % 10)] := by
  unfold Nat.toDigits
  rw [Nat.toDigitsCore]
  by_cases hn : n < 10
  · have : n / 10 = 0 := by omega
    simp [this, hn, Nat.mod_eq_of_lt hn]
  · have h0 : n / 10 ≠ 0 := by omega
    simp only [h0, if_false, hn]
    rw [toDigitsCore_acc]
    rw [toDigitsCore_fuel n (n / 10) (by omega) (n / 10 + 1) (by omega)]

theorem digitChar_inj (a b : Nat) (ha : a < 10) (hb : b < 10)
    (h : Nat.digitChar a = Nat.digitChar b) : a = b := by
  interval_cases a <;> interval_cases b <;> first | rfl | (exact absurd h (by decide))

theorem digitChar_ne_minus (a : Nat) (ha : a < 10) : Nat.digitChar a ≠ '-' := by
  interval_cases a <;> decide

theorem toDigits_ne_nil (n : Nat) : Nat.toDigits 10 n ≠ [] := by
  rw [toDigits_step]; split <;> simp

theorem toDigits_inj : ∀ (n m : Nat), Nat.toDigits 10 n = Nat.toDigits 10 m → n = m := by
  intro n
  induction n using Nat.strong_induction_on with
  | _ n ih =>
    intro m h
    rw [toDigits_step n, toDigits_step m] at h
    by_cases hn : n < 10 <;> by_cases hm : m < 10
    · simp only [hn, hm, if_true] at h
      exact digitChar_inj n m hn hm (by simpa using h)
    · simp only [hn, hm, if_true, if_false] at h
      have hl := congrArg List.length h
      simp only [List.length_append, List.length_singleton] at hl
      have hne : (Nat.toDigits 10 (m / 10)).length ≠ 0 :=
        fun h0 => toDigits_ne_nil (m / 10) (List.length_eq_zero.mp h0)
      omega
    · simp only [hn, hm, if_true, if_false] at h
      have hl := congrArg List.length h
      simp only [List.length_append, List.length_singleton] at hl
      have hne : (Nat.toDigits 10 (n / 10)).length ≠ 0 :=
        fun h0 => toDigits_ne_nil (n / 10) (List.length_eq_zero.mp h0)
      omega
    · simp only [hn, hm, if_false] at h
      have h' := List.append_inj' h rfl
      have h1 := ih (n / 10) (by omega) (m / 10) h'.1
      have h2 := digitChar_inj (n % 10) (m % 10) (Nat.mod_lt _ (by decide)) (Nat.mod_lt _ (by decide))
        (by simpa using h'.2)
      omega

theorem toDigits_head_ne_minus (n : Nat) : ∀ c ∈ Nat.toDigits 10 n, c ≠ '-' := by
  induction n using Nat.strong_induction_on with
  | _ n ih =>
    intro c hc
    rw [toDigits_step n] at hc
    by_cases hn : n < 10
    · simp only [hn, if_true, List.mem_singleton] at hc
      rw [hc]; exact digitChar_ne_minus n hn
    · simp only [hn, if_false, List.mem_append, List.mem_singleton] at hc
      rcases hc with hc | hc
      · exact ih (n / 10) (by omega) c hc
      · rw [hc]; exact digitChar_ne_minus _ (Nat.mod_lt _ (by decide))

theorem Nat_repr_inj (n m : Nat) (h : Nat.repr n = Nat.repr m) : n = m := by
  unfold Nat.repr at h
  exact toDigits_inj n m (congrArg String.data h)

theorem Int_toString_inj (a b : Int) (h : toString a = toString b) : a = b := by
  cases a with
  | ofNat n =>
    cases b with
    | ofNat m =>
      have : Nat.repr n = Nat.repr m := h
      rw [Nat_repr_inj n m this]
    | negSucc m =>
      exfalso
      have h' : Nat.repr n = "-" ++ Nat.repr (m + 1) := h
      have h2 := congrArg String.data h'
      simp only [Nat.repr, List.asString, String.data_append] at h2
      have := toDigits_head_ne_minus n '-' (by rw [h2]; simp)
      exact this rfl
  | negSucc n =>
    cases b with
    | ofNat m =>
      exfalso
      have h' : "-" ++ Nat.repr (n + 1) = Nat.repr m := h
      have h2 := congrArg String.data h'
      simp only [Nat.repr, List.asString, String.data_append] at h2
      have := toDigits_head_ne_minus m '-' (by rw [← h2]; simp)
      exact this rfl
    | negSucc m =>
      have h' : "-" ++ Nat.repr (n + 1) = "-" ++ Nat.repr (m + 1) := h
      have h2 := congrArg String.data h'
      simp only [String.data_append, List.append_cancel_left_eq] at h2
      have h3 : Nat.repr (n + 1) = Nat.repr (m + 1) := String.ext h2
      have := Nat_repr_inj _ _ h3
      congr 1
      omega

theorem Sprintf_d_inj (a b : Int) (h : Sprintf_d a = Sprintf_d b) : a = b :=
  Int_toString_inj a b h

/-! ## Session store: lookup, creation, invalidation -/

theorem GetSession_store (sm : SessionManager) (k : String) (now : Time) :
    (sm.GetSession k now).2 = sm := by
  unfold SessionManager.GetSession
  split
  · rfl
  · split <;> rfl

theorem GetSession_absent (sm : SessionManager) (k : String) (now : Time)
    (h : sm.sessions.lookup k = none) :
    (sm.GetSession k now).1 = (Session.zero, false) := by
  unfold SessionManager.GetSession
  rw [h]

theorem GetSession_present (sm : SessionManager) (k : String) (now : Time) (s : Session)
    (h : sm.sessions.lookup k = some s) :
    (sm.GetSession k now).1 =
      if s.Expiry < now then (Session.zero, false) else (s, true) := by
  unfold SessionManager.GetSession
  rw [h]
  simp only [Time.Before]
  by_cases hlt : s.Expiry < now <;> simp [hlt]

/-- C1, as stated, fails on the boundary: a session created at time
1700000000000000000 expires at 1700003600000000000; a lookup at exactly that
time finds a record whose expiry is not later than now, and still returns it
with found = true. -/
theorem GetSession_boundary_counterexample :
    (NewSessionManager.CreateSession "admin" 1700000000000000000 1700000000000000000).1 =
      "1700000000000000000" ∧
    (NewSessionManager.CreateSession "admin" 1700000000000000000
        1700000000000000000).2.sessions.lookup "1700000000000000000" =
      some ⟨"admin", 1700003600000000000⟩ ∧
    (⟨"admin", 1700003600000000000⟩ : Session).Expiry ≤ 1700003600000000000 ∧
    ((NewSessionManager.CreateSession "admin" 1700000000000000000
        1700000000000000000).2.GetSession "1700000000000000000" 1700003600000000000).1 =
      (⟨"admin", 1700003600000000000⟩, true) := by
  decide

/-- C1 (amended): GetSession reports found = false exactly when the token is
absent or its record has expiry strictly earlier than now; whenever it reports
found = true, the returned record is the stored one and its expiry is not
earlier than now. -/
theorem GetSession_never_expired (sm : SessionManager) (k : String) (now : Time) :
    ((sm.GetSession k now).1.2 = false ↔
      (sm.sessions.lookup k = none ∨
        ∃ s, sm.sessions.lookup k = some s ∧ s.Expiry < now)) ∧
    ((sm.GetSession k now).1.2 = true →
      sm.sessions.lookup k = some (sm.GetSession k now).1.1 ∧
        now ≤ ((sm.GetSession k now).1.1).Expiry) := by
  cases hl : sm.sessions.lookup k with
  | none =>
    rw [GetSession_absent sm k now hl]
    simp
  | some s =>
    rw [GetSession_present sm k now s hl]
    by_cases hlt : s.Expiry < now
    · simp [hlt]
    · rw [if_neg hlt]
      exact ⟨by simp [hlt], fun _ => ⟨rfl, not_lt.mp hlt⟩⟩

theorem GetSession_never_expired_witness :
    ((NewSessionManager.CreateSession "admin" 1000 1000).2.GetSession "1000" 2000).1.2 = true ∧
    (NewSessionManager.CreateSession "admin" 1000 1000).2.sessions.lookup "1000" =
      some ((NewSessionManager.CreateSession "admin" 1000 1000).2.GetSession "1000" 2000).1.1 ∧
    (2000 : Time) ≤
      (((NewSessionManager.CreateSession "admin" 1000 1000).2.GetSession "1000" 2000).1.1).Expiry :=
  ⟨by decide,
   (GetSession_never_expired (NewSessionManager.CreateSession "admin" 1000 1000).2 "1000"
      2000).2 (by decide)⟩

/-- C2: CreateSession always returns, and a lookup of the returned token at any
time t' with t ≤ t' < t + 1 hour, t being the time of creation from which the
expiry is computed, finds a record with the given username and expiry
t + 1 hour. -/
theorem CreateSession_GetSession_roundtrip (sm : SessionManager) (u : String)
    (t₁ t t' : Time) (_h₁ : t ≤ t') (h₂ : t' < t + Hour) :
    ((sm.CreateSession u t₁ t).2.GetSession (sm.CreateSession u t₁ t).1 t').1 =
      (⟨u, t + Hour⟩, true) := by
  have hl : (sm.CreateSession u t₁ t).2.sessions.lookup (sm.CreateSession u t₁ t).1 =
      some ⟨u, t + Hour⟩ := by
    simp [SessionManager.CreateSession, Time.Add]
  rw [GetSession_present _ _ _ _ hl]
  have : ¬ (t + Hour < t') := not_lt.mpr (le_of_lt h₂)
  simp [this]

theorem CreateSession_GetSession_roundtrip_witness :
    ((NewSessionManager.CreateSession "admin" 7 7).2.GetSession
      (NewSessionManager.CreateSession "admin" 7 7).1 8).1 = (⟨"admin", 7 + Hour⟩, true) :=
  CreateSession_GetSession_roundtrip NewSessionManager "admin" 7 7 8 (by decide) (by decide)

/-- C6: after InvalidateSession(k) the store has no entry for k, so GetSession(k)
reports found = false at every time; every other token keeps its entry; if k
was absent the store is unchanged; invalidating twice equals invalidating
once. -/
theorem InvalidateSession_removes_exactly (sm : SessionManager) (k : String) :
    (sm.InvalidateSession k).sessions.lookup k = none ∧
    (∀ now, ((sm.InvalidateSession k).GetSession k now).1.2 = false) ∧
    (∀ k', k' ≠ k → (sm.InvalidateSession k).sessions.lookup k' = sm.sessions.lookup k') ∧
    (sm.sessions.lookup k = none → sm.InvalidateSession k = sm) ∧
    (sm.InvalidateSession k).InvalidateSession k = sm.InvalidateSession k := by
  have h1 : (sm.InvalidateSession k).sessions.lookup k = none := by
    simp [SessionManager.InvalidateSession]
  have h4 : ∀ m : SessionManager, m.sessions.lookup k = none → m.InvalidateSession k = m := by
    intro m hm
    cases m with
    | mk ss =>
      simp only [SessionManager.InvalidateSession]
      congr 1
      apply AList.ext
      have hk : k ∉ ss := AList.lookup_eq_none.mp hm
      simp only [AList.erase]
      exact List.kerase_of_not_mem_keys hk
  refine ⟨h1, ?_, ?_, h4 sm, h4 _ h1⟩
  · intro now
    rw [GetSession_absent _ k now h1]
  · intro k' hk
    simp [SessionManager.InvalidateSession, AList.lookup_erase_ne hk]

theorem InvalidateSession_removes_exactly_witness :
    (((NewSessionManager.CreateSession "admin" 1000 1000).2.InvalidateSession
        "1000").GetSession "1000" 2000).1.2 = false ∧
    NewSessionManager.InvalidateSession "1000" = NewSessionManager :=
  ⟨(InvalidateSession_removes_exactly (NewSessionManager.CreateSession "admin" 1000 1000).2
      "1000").2.1 2000,
   (InvalidateSession_removes_exactly NewSessionManager "1000").2.2.2.1 (by decide)⟩

/-- C7: GetSession leaves the session mapping as it was; in particular a lookup
of a token whose expiry has elapsed reports found = false while the entry is
still in the store. -/
theorem GetSession_read_only (sm : SessionManager) (k : String) (now : Time) :
    (sm.GetSession k now).2 = sm ∧
    (∀ s, sm.sessions.lookup k = some s → s.Expiry < now →
      (sm.GetSession k now).1.2 = false ∧
        (sm.GetSession k now).2.sessions.lookup k = some s) := by
  refine ⟨GetSession_store sm k now, ?_⟩
  intro s hs hlt
  rw [GetSession_store, GetSession_present sm k now s hs]
  simp [hlt, hs]

theorem GetSession_read_only_witness :
    ((NewSessionManager.CreateSession "admin" 1000 1000).2.GetSession "1000"
        3600000001001).1.2 = false ∧
    ((NewSessionManager.CreateSession "admin" 1000 1000).2.GetSession "1000"
        3600000001001).2.sessions.lookup "1000" = some ⟨"admin", 3600000001000⟩ :=
  (GetSession_read_only (NewSessionManager.CreateSession "admin" 1000 1000).2 "1000"
    3600000001001).2 ⟨"admin", 3600000001000⟩ (by decide) (by decide)

/-! ## Tokens -/

theorem UnixNano_inRange (t : Time) (h₁ : -9223372036854775808 ≤ t)
    (h₂ : t < 9223372036854775808) : Time.UnixNano t = t := by
  unfold Time.UnixNano
  have h : (t + 9223372036854775808) % 18446744073709551616 = t + 9223372036854775808 :=
    Int.emod_eq_of_lt (by linarith) (by linarith)
  rw [h]
  exact add_sub_cancel_right t _

theorem CreateSession_size_fresh (sm : SessionManager) (u : String) (t₁ t₂ : Time)
    (h : Sprintf_d (Time.UnixNano t₁) ∉ sm.sessions) :
    (sm.CreateSession u t₁ t₂).2.size = sm.size + 1 := by
  simp only [SessionManager.CreateSession, SessionManager.size]
  rw [AList.insert_entries_of_neg h, List.length_cons]

theorem CreateSession_mem (sm : SessionManager) (u : String) (t₁ t₂ : Time) (k : String) :
    k ∈ (sm.CreateSession u t₁ t₂).2.sessions ↔
      k = Sprintf_d (Time.UnixNano t₁) ∨ k ∈ sm.sessions := by
  simp [SessionManager.CreateSession, AList.mem_insert]

theorem createAll_size : ∀ (calls : List (String × Time × Time)) (sm : SessionManager),
    (tokensOf calls).Nodup → (∀ k ∈ tokensOf calls, k ∉ sm.sessions) →
    (sm.createAll calls).size = sm.size + calls.length := by
  intro calls
  induction calls with
  | nil => intro sm _ _; simp [SessionManager.createAll]
  | cons c cs ih =>
    intro sm hnd hfresh
    simp only [tokensOf, List.map_cons, List.nodup_cons] at hnd
    simp only [SessionManager.createAll, List.length_cons]
    have hc : Sprintf_d (Time.UnixNano c.2.1) ∉ sm.sessions :=
      hfresh _ (by simp [tokensOf])
    rw [ih _ hnd.2, CreateSession_size_fresh sm c.1 c.2.1 c.2.2 hc]
    · omega
    · intro k hk hmem
      rcases (CreateSession_mem sm c.1 c.2.1 c.2.2 k).mp hmem with h | h
      · exact hnd.1 (h ▸ hk)
      · exact hfresh k (by simp only [tokensOf, List.map_cons]; exact List.mem_cons_of_mem _ hk) h

/-- C8: the token is the decimal rendering of the nanosecond count of the
creation time; two creation times with different nanosecond counts give
different tokens, in particular any two different instants that an int64 of
nanoseconds can hold; and N calls of CreateSession at pairwise distinct
nanosecond counts, starting from the empty store, leave exactly N entries. -/
theorem CreateSession_tokens_distinct :
    (∀ (sm : SessionManager) (u : String) (t₁ t₂ : Time),
      (sm.CreateSession u t₁ t₂).1 = Sprintf_d (Time.UnixNano t₁)) ∧
    (∀ (sm sm' : SessionManager) (u u' : String) (t₁ t₂ t₁' t₂' : Time),
      Time.UnixNano t₁ ≠ Time.UnixNano t₁' →
      (sm.CreateSession u t₁ t₂).1 ≠ (sm'.CreateSession u' t₁' t₂').1) ∧
    (∀ (sm sm' : SessionManager) (u u' : String) (t₁ t₂ t₁' t₂' : Time),
      -9223372036854775808 ≤ t₁ → t₁ < 9223372036854775808 →
      -9223372036854775808 ≤ t₁' → t₁' < 9223372036854775808 → t₁ ≠ t₁' →
      (sm.CreateSession u t₁ t₂).1 ≠ (sm'.CreateSession u' t₁' t₂').1) ∧
    (∀ calls : List (String × Time × Time),
      (calls.map (fun c => Time.UnixNano c.2.1)).Nodup →
      (NewSessionManager.createAll calls).size = calls.length) := by
  refine ⟨fun _ _ _ _ => rfl, ?_, ?_, ?_⟩
  · intro sm sm' u u' t₁ t₂ t₁' t₂' hne heq
    exact hne (Sprintf_d_inj _ _ heq)
  · intro sm sm' u u' t₁ t₂ t₁' t₂' a b c d hne heq
    have h := Sprintf_d_inj _ _ heq
    rw [UnixNano_inRange t₁ a b, UnixNano_inRange t₁' c d] at h
    exact hne h
  · intro calls hnd
    have hnd' : (tokensOf calls).Nodup := by
      have : tokensOf calls = (calls.map (fun c => Time.UnixNano c.2.1)).map Sprintf_d := by
        simp [tokensOf, List.map_map, Function.comp_def]
      rw [this]
      exact List.Nodup.map (fun a b h => Sprintf_d_inj a b h) hnd
    have := createAll_size calls NewSessionManager hnd' (by
      intro k _ hk
      exact absurd hk (by simp [NewSessionManager]))
    simpa [SessionManager.size, NewSessionManager] using this

theorem CreateSession_tokens_distinct_witness :
    (NewSessionManager.CreateSession "admin" 1 2).1 ≠
        (NewSessionManager.CreateSession "admin" 3 4).1 ∧
    (NewSessionManager.createAll [("admin", 1, 2), ("admin", 3, 4), ("bob", 5, 5)]).size = 3 :=
  ⟨CreateSession_tokens_distinct.2.1 NewSessionManager NewSessionManager "admin" "admin"
      1 2 3 4 (by decide),
   CreateSession_tokens_distinct.2.2.2 [("admin", 1, 2), ("admin", 3, 4), ("bob", 5, 5)]
      (by decide)⟩

/-! ## Handlers -/

/-- C3: serveAdmin answers with the 302 redirect to /login exactly when the
request has no cookie named session_id or GetSession on the cookie value
reports not-found; in every other case it renders the admin template on the
session record that GetSession returned, with no Location header and the
default status. -/
theorem serveAdmin_session_gated (sm : SessionManager) (r : Request) (now : Time) :
    (((serveAdmin sm r now).1.Status = StatusFound ∧
        (serveAdmin sm r now).1.Location = some "/login") ↔
      (r.Cookie "session_id" = none ∨
        ∃ c, r.Cookie "session_id" = some c ∧ (sm.GetSession c.Value now).1.2 = false)) ∧
    (∀ c, r.Cookie "session_id" = some c → (sm.GetSession c.Value now).1.2 = true →
      (serveAdmin sm r now).1 =
          { Response.new with
            Body := Body.template "static/admin.html" (sm.GetSession c.Value now).1.1 } ∧
        (serveAdmin sm r now).1.Location = none ∧ (serveAdmin sm r now).1.Status = 200) := by
  unfold serveAdmin
  cases hc : r.Cookie "session_id" with
  | none => simp [Redirect]
  | some c =>
    cases hv : (sm.GetSession c.Value now).1.2 with
    | false => simp [Redirect, hv]
    | true => simp [hv, Response.new, StatusFound]

theorem serveAdmin_session_gated_witness :
    (serveAdmin (NewSessionManager.CreateSession "admin" 1000 1000).2
        ⟨"GET", "/admin", [], [⟨"session_id", "1000", zeroTime⟩]⟩ 2000).1 =
      { Response.new with
        Body := Body.template "static/admin.html"
          ((NewSessionManager.CreateSession "admin" 1000 1000).2.GetSession "1000" 2000).1.1 } ∧
    ((serveAdmin NewSessionManager ⟨"GET", "/admin", [], []⟩ 2000).1.Status = StatusFound ∧
      (serveAdmin NewSessionManager ⟨"GET", "/admin", [], []⟩ 2000).1.Location =
        some "/login") :=
  ⟨((serveAdmin_session_gated (NewSessionManager.CreateSession "admin" 1000 1000).2
      ⟨"GET", "/admin", [], [⟨"session_id", "1000", zeroTime⟩]⟩ 2000).2
      ⟨"session_id", "1000", zeroTime⟩ (by decide) (by decide)).1,
   (serveAdmin_session_gated NewSessionManager ⟨"GET", "/admin", [], []⟩ 2000).1.mpr
      (Or.inl (by decide))⟩

/-- C4: a POST to the login handler whose form values are not exactly
("admin", "password") leaves the session store as it was, sets no cookie, and
answers with the Location header /login and the status code 401. -/
theorem serveLogin_failed (env : Env) (sm : SessionManager) (r : Request)
    (now₁ now₂ now₃ : Time) (hm : r.Method = "POST")
    (hc : ¬ (r.FormValue "username" = "admin" ∧ r.FormValue "password" = "password")) :
    (serveLogin env sm r now₁ now₂ now₃).2 = sm ∧
    (serveLogin env sm r now₁ now₂ now₃).1.SetCookie = [] ∧
    (serveLogin env sm r now₁ now₂ now₃).1.Location = some "/login" ∧
    (serveLogin env sm r now₁ now₂ now₃).1.Status = 401 := by
  unfold serveLogin
  rw [if_pos (by simpa [MethodPost] using hm), if_neg (by simpa [username, password] using hc)]
  simp [Redirect, Response.new, StatusUnauthorized]

/-- C5: a POST to the login handler with username "admin" and password
"password" calls CreateSession; the store afterwards maps the returned token
to a record with username "admin"; the response sets one cookie, named
session_id, whose value is that token and whose expiry is one hour after the
clock read of the request; and the response is the 302 redirect to /admin. -/
theorem serveLogin_success (env : Env) (sm : SessionManager) (r : Request)
    (now₁ now₂ now₃ : Time) (hm : r.Method = "POST")
    (hu : r.FormValue "username" = "admin") (hp : r.FormValue "password" = "password") :
    (serveLogin env sm r now₁ now₂ now₃).2 = (sm.CreateSession "admin" now₁ now₂).2 ∧
    (serveLogin env sm r now₁ now₂ now₃).2.sessions.lookup
        (sm.CreateSession "admin" now₁ now₂).1 = some ⟨"admin", now₂ + Hour⟩ ∧
    (serveLogin env sm r now₁ now₂ now₃).1.SetCookie =
      [{ Name := "session_id", Value := (sm.CreateSession "admin" now₁ now₂).1,
         Expires := now₃ + Hour }] ∧
    (serveLogin env sm r now₁ now₂ now₃).1.Status = 302 ∧
    (serveLogin env sm r now₁ now₂ now₃).1.Location = some "/admin" := by
  unfold serveLogin
  rw [if_pos (by simpa [MethodPost] using hm),
    if_pos (by simpa [username, password] using And.intro hu hp)]
  simp [Redirect, Response.new, StatusFound, SetCookie, SessionManager.CreateSession,
    Time.Add, username]

/-- A POST request with the given form values and no cookie. -/
theorem serveLogin_failed_witness :
    (serveLogin ⟨fun _ => none, fun _ => ""⟩ NewSessionManager
        ⟨"POST", "/login", [("username", "admin"), ("password", "guess")], []⟩ 1 2 3).2 =
      NewSessionManager ∧
    (serveLogin ⟨fun _ => none, fun _ => ""⟩ NewSessionManager
        ⟨"POST", "/login", [("username", "admin"), ("password", "guess")], []⟩ 1 2 3).1.SetCookie
      = [] ∧
    (serveLogin ⟨fun _ => none, fun _ => ""⟩ NewSessionManager
        ⟨"POST", "/login", [("username", "admin"), ("password", "guess")], []⟩ 1 2 3).1.Location
      = some "/login" ∧
    (serveLogin ⟨fun _ => none, fun _ => ""⟩ NewSessionManager
        ⟨"POST", "/login", [("username", "admin"), ("password", "guess")], []⟩ 1 2 3).1.Status
      = 401 :=
  serveLogin_failed ⟨fun _ => none, fun _ => ""⟩ NewSessionManager
    ⟨"POST", "/login", [("username", "admin"), ("password", "guess")], []⟩ 1 2 3
    (by decide) (by decide)

theorem serveLogin_success_witness :
    (serveLogin ⟨fun _ => none, fun _ => ""⟩ NewSessionManager
        ⟨"POST", "/login", [("username", "admin"), ("password", "password")], []⟩ 1 2 3).1.SetCookie
      = [{ Name := "session_id", Value := "1", Expires := 3 + Hour }] ∧
    (serveLogin ⟨fun _ => none, fun _ => ""⟩ NewSessionManager
        ⟨"POST", "/login", [("username", "admin"), ("password", "password")], []⟩ 1 2 3).1.Status
      = 302 :=
  have h := serveLogin_success ⟨fun _ => none, fun _ => ""⟩ NewSessionManager
    ⟨"POST", "/login", [("username", "admin"), ("password", "password")], []⟩ 1 2 3
    (by decide) (by decide) (by decide)
  ⟨h.2.2.1, h.2.2.2.1⟩

/-! ## Routing -/

theorem PathUnescape_cons (c : Char) (s : List Char) (h : c ≠ '%') :
    PathUnescape (c :: s) = (PathUnescape s).map (fun r => c :: r) := by
  conv_lhs => unfold PathUnescape
  simp only [if_neg h]

theorem PathUnescape_percent (x y : Char) (s : List Char) :
    PathUnescape ('%' :: x :: y :: s) =
      if ishex x && ishex y then
        (PathUnescape s).map (fun r => Char.ofNat (unhex x * 16 + unhex y) :: r)
      else none := by
  conv_lhs => unfold PathUnescape
  simp only [if_true]

theorem PathUnescape_percent_nil : PathUnescape ['%'] = none := by
  conv_lhs => unfold PathUnescape
  simp only [if_true]

theorem PathUnescape_percent_one (x : Char) : PathUnescape ['%', x] = none := by
  conv_lhs => unfold PathUnescape
  simp only [if_true]

theorem PathUnescape_append_slash : ∀ (n : Nat) (a b : List Char), a.length ≤ n →
    PathUnescape (a ++ '/' :: b) =
      (PathUnescape a).bind (fun a' => (PathUnescape b).map (fun b' => a' ++ '/' :: b')) := by
  intro n
  induction n using Nat.strong_induction_on with
  | _ n ih =>
    intro a b hlen
    match a, hlen with
    | [], _ =>
      rw [List.nil_append, PathUnescape_cons '/' b (by decide)]
      show _ = (some []).bind _
      simp
    | c :: a1, hlen =>
      by_cases hc : c = '%'
      · subst hc
        match a1, hlen with
        | [], _ =>
          rw [PathUnescape_percent_nil]
          cases b with
          | nil => exact PathUnescape_percent_one '/'
          | cons y b' =>
            show PathUnescape ('%' :: '/' :: y :: b') = _
            rw [PathUnescape_percent]
            have : ishex '/' = false := by decide
            simp [this]
        | [x], _ =>
          rw [PathUnescape_percent_one]
          show PathUnescape ('%' :: x :: '/' :: b) = _
          rw [PathUnescape_percent]
          have : ishex '/' = false := by decide
          simp [this]
        | x :: y :: a2, hlen =>
          have hl : a2.length ≤ n - 3 := by simp at hlen; omega
          have := ih (n - 3) (by simp at hlen; omega) a2 b hl
          show PathUnescape ('%' :: x :: y :: (a2 ++ '/' :: b)) = _
          rw [PathUnescape_percent, PathUnescape_percent, this]
          by_cases hh : (ishex x && ishex y) = true
          · rw [if_pos hh, if_pos hh]
            cases PathUnescape a2 <;> cases PathUnescape b <;> simp
          · rw [if_neg hh, if_neg hh]
            rfl
      · have hl : a1.length ≤ n - 1 := by simp at hlen; omega
        have := ih (n - 1) (by simp at hlen; omega) a1 b hl
        rw [List.cons_append, PathUnescape_cons c _ hc, PathUnescape_cons c _ hc, this]
        cases PathUnescape a1 <;> cases PathUnescape b <;> simp

theorem pathElements_ne_nil (l : List Char) : pathElements l ≠ [] := by
  cases l with
  | nil => simp [pathElements]
  | cons c cs =>
    simp only [pathElements]
    split
    · simp
    · split <;> simp

theorem pathElements_cons_slash (l : List Char) :
    pathElements ('/' :: l) = [] :: pathElements l := by
  simp [pathElements]

theorem pathElements_cons_other (c : Char) (l : List Char) (h : c ≠ '/') :
    pathElements (c :: l) =
      (c :: (pathElements l).headD []) :: (pathElements l).tail := by
  simp only [pathElements, if_neg h]
  cases hp : pathElements l with
  | nil => exact absurd hp (pathElements_ne_nil l)
  | cons e es => simp

/-- The pieces of a path: either one piece, the path itself without a slash, or a
first piece without a slash, a slash, and the pieces of the rest. -/
theorem pathElements_cases (l : List Char) :
    (pathElements l = [l] ∧ '/' ∉ l) ∨
    (∃ p l', pathElements l = p :: pathElements l' ∧ l = p ++ '/' :: l' ∧ '/' ∉ p) := by
  induction l with
  | nil => left; simp [pathElements]
  | cons c cs ih =>
    by_cases hc : c = '/'
    · subst hc
      right
      exact ⟨[], cs, pathElements_cons_slash cs, rfl, by simp⟩
    · rw [pathElements_cons_other c cs hc]
      rcases ih with ⟨h1, h2⟩ | ⟨p, l', h1, h2, h3⟩
      · left
        rw [h1]
        exact ⟨rfl, by simp [h2, Ne.symm hc]⟩
      · right
        refine ⟨c :: p, l', ?_, ?_, ?_⟩
        · rw [h1]; rfl
        · rw [h2]; rfl
        · simp [h3, Ne.symm hc]

theorem mainMux_patterns :
    mainMux.patterns =
      [⟨[Segment.multi], [Segment.multi], HandlerFunc.serveIndex⟩,
       ⟨[Segment.lit "login"], [Segment.lit "login"], HandlerFunc.serveLogin⟩,
       ⟨[Segment.lit "admin"], [Segment.lit "admin"], HandlerFunc.serveAdmin⟩,
       ⟨[Segment.lit "static", Segment.multi], [Segment.lit "static", Segment.multi],
         HandlerFunc.serveStatic⟩] := by
  decide

theorem matchSegments_nil (segs : List String) : matchSegments [] segs = none := by
  induction segs with
  | nil => rfl
  | cons seg rest ih => simp [matchSegments, childEntries, ih]

/-- The match of the tree of `main` on a path of at least one segment. -/
theorem main_match (seg : String) (rest : List String) :
    matchSegments mainMux.patterns (seg :: rest) =
      some (if seg = "login" ∧ rest = [] then
              ⟨[], [Segment.lit "login"], HandlerFunc.serveLogin⟩
            else if seg = "admin" ∧ rest = [] then
              ⟨[], [Segment.lit "admin"], HandlerFunc.serveAdmin⟩
            else if seg = "static" ∧ rest ≠ [] then
              ⟨[Segment.multi], [Segment.lit "static", Segment.multi], HandlerFunc.serveStatic⟩
            else ⟨[Segment.multi], [Segment.multi], HandlerFunc.serveIndex⟩) := by
  rw [mainMux_patterns]
  by_cases h1 : seg = "login"
  · subst h1
    cases rest with
    | nil => decide
    | cons r rs =>
      simp [matchSegments, childEntries, List.filterMap, matchSegments_nil]
  by_cases h2 : seg = "admin"
  · subst h2
    cases rest with
    | nil => decide
    | cons r rs =>
      simp [matchSegments, childEntries, List.filterMap, matchSegments_nil]
  by_cases h3 : seg = "static"
  · subst h3
    cases rest with
    | nil => decide
    | cons r rs =>
      simp [matchSegments, childEntries, List.filterMap, matchSegments_nil]
  have e1 : ¬ ("login" = seg) := fun h => h1 h.symm
  have e2 : ¬ ("admin" = seg) := fun h => h2 h.symm
  have e3 : ¬ ("static" = seg) := fun h => h3 h.symm
  simp [matchSegments, childEntries, List.filterMap, matchSegments_nil, h1, h2, h3, e1, e2, e3]

theorem URLPath_single (ep : String) (l : List Char) (h : ep.data = '/' :: l)
    (hv : (PathUnescape ep.data).isSome = true) :
    URLPath ep = ⟨'/' :: pathUnescape l⟩ := by
  unfold URLPath pathUnescape
  rw [h] at hv ⊢
  rw [PathUnescape_cons '/' l (by decide)] at hv ⊢
  cases hl : PathUnescape l with
  | none => rw [hl] at hv; simp at hv
  | some l' => simp

theorem URLPath_multi (ep : String) (p l' : List Char) (h : ep.data = '/' :: (p ++ '/' :: l'))
    (hv : (PathUnescape ep.data).isSome = true) :
    ∃ u', URLPath ep = ⟨'/' :: (pathUnescape p ++ '/' :: u')⟩ := by
  unfold URLPath pathUnescape
  rw [h] at hv ⊢
  rw [PathUnescape_cons '/' _ (by decide),
    PathUnescape_append_slash p.length p l' (le_refl _)] at hv ⊢
  cases hp : PathUnescape p with
  | none => rw [hp] at hv; simp at hv
  | some p' =>
    cases hl : PathUnescape l' with
    | none => rw [hp, hl] at hv; simp at hv
    | some u' => exact ⟨u', by simp⟩

theorem segmentsOfPieces_cons₂ (p q : List Char) (qs : List (List Char)) :
    segmentsOfPieces (p :: q :: qs) = ⟨pathUnescape p⟩ :: segmentsOfPieces (q :: qs) := rfl

theorem segmentsOfPieces_ne_nil (q : List Char) (qs : List (List Char)) :
    segmentsOfPieces (q :: qs) ≠ [] := by
  cases qs with
  | nil => simp [segmentsOfPieces]
  | cons r rs => simp [segmentsOfPieces]

theorem mk_eq_iff (x : List Char) (s : String) : (⟨x⟩ : String) = s ↔ x = s.data :=
  ⟨fun h => by rw [← h], fun h => String.ext h⟩

/-- The match of the tree of `main` on a rooted path of one piece. -/
theorem treeMatch_single (ep : String) (l : List Char) (h : ep.data = '/' :: l)
    (hl : pathElements l = [l]) :
    mainMux.treeMatch ep =
      some (if l ≠ [] ∧ pathUnescape l = "login".data then
              ⟨[], [Segment.lit "login"], HandlerFunc.serveLogin⟩
            else if l ≠ [] ∧ pathUnescape l = "admin".data then
              ⟨[], [Segment.lit "admin"], HandlerFunc.serveAdmin⟩
            else ⟨[Segment.multi], [Segment.multi], HandlerFunc.serveIndex⟩) := by
  have hne : ep ≠ "" := by
    intro h0; rw [h0] at h; exact List.noConfusion h
  unfold ServeMux.treeMatch segmentsOf
  rw [if_neg hne, h, List.drop_one, List.tail_cons, hl]
  simp only [segmentsOfPieces]
  rw [main_match]
  by_cases h0 : l = []
  · subst h0
    have a1 : ¬ ("/" = "login") := by decide
    have a2 : ¬ ("/" = "admin") := by decide
    have a3 : ¬ ("/" = "static") := by decide
    simp [a1, a2, a3]
  · simp only [if_neg h0, mk_eq_iff, ne_eq, h0, not_false_eq_true, true_and, and_true,
      not_true_eq_false, and_false, if_false]

/-- The match of the tree of `main` on a rooted path of several pieces. -/
theorem treeMatch_multi (ep : String) (p l' : List Char) (h : ep.data = '/' :: (p ++ '/' :: l'))
    (hl : pathElements (p ++ '/' :: l') = p :: pathElements l') :
    mainMux.treeMatch ep =
      some (if pathUnescape p = "static".data then
              ⟨[Segment.multi], [Segment.lit "static", Segment.multi], HandlerFunc.serveStatic⟩
            else ⟨[Segment.multi], [Segment.multi], HandlerFunc.serveIndex⟩) := by
  have hne : ep ≠ "" := by
    intro h0; rw [h0] at h; exact List.noConfusion h
  unfold ServeMux.treeMatch segmentsOf
  rw [if_neg hne, h, List.drop_one, List.tail_cons, hl]
  cases hq : pathElements l' with
  | nil => exact absurd hq (pathElements_ne_nil l')
  | cons q qs =>
    rw [segmentsOfPieces_cons₂, main_match]
    have hr := segmentsOfPieces_ne_nil q qs
    simp only [hr, and_false, if_false, mk_eq_iff, ne_eq, not_false_eq_true, and_true]

theorem pathElements_append (p l' : List Char) (hp : '/' ∉ p) :
    pathElements (p ++ '/' :: l') = p :: pathElements l' := by
  induction p with
  | nil => exact pathElements_cons_slash l'
  | cons c cs ih =>
    have hc : c ≠ '/' := fun h => hp (by simp [h])
    have hcs : '/' ∉ cs := fun h => hp (List.mem_cons_of_mem _ h)
    rw [List.cons_append, pathElements_cons_other c _ hc, ih hcs]
    rfl

theorem cleanPath_rooted (s : String) : ∃ l, (cleanPath s).data = '/' :: l := by
  unfold cleanPath
  by_cases h : s = ""
  · simp only [h, if_true]
    exact ⟨[], rfl⟩
  · rw [if_neg h]
    simp only [CleanRooted]
    split <;> split <;> exact ⟨_, rfl⟩

theorem treeMatch_rooted (path : String) (l : List Char) (h : path.data = '/' :: l) :
    ∃ e, mainMux.treeMatch path = some e := by
  rcases pathElements_cases l with ⟨h1, _⟩ | ⟨p, l', h1, h2, _⟩
  · exact ⟨_, treeMatch_single path l h h1⟩
  · subst h2
    exact ⟨_, treeMatch_multi path p l' h h1⟩

/-- What the handler matched says about the path of the request. -/
theorem treeMatch_path (ep : String) (hv : ValidEscapedPath ep) (e : Entry)
    (hm : mainMux.treeMatch ep = some e) :
    (e.handler = HandlerFunc.serveLogin → URLPath ep = "/login") ∧
    (e.handler = HandlerFunc.serveAdmin → URLPath ep = "/admin") ∧
    (e.handler = HandlerFunc.serveStatic → "/static/".data <+: (URLPath ep).data) := by
  have hne : ep ≠ "" := by
    intro h0
    rw [h0] at hm
    simp [ServeMux.treeMatch] at hm
  by_cases hstar : ep = "*"
  · subst hstar
    have hi : mainMux.treeMatch "*" =
        some ⟨[Segment.multi], [Segment.multi], HandlerFunc.serveIndex⟩ := by decide
    rw [hi] at hm
    have he := Option.some.inj hm
    subst he
    exact ⟨(fun h => HandlerFunc.noConfusion h), (fun h => HandlerFunc.noConfusion h),
      (fun h => HandlerFunc.noConfusion h)⟩
  obtain ⟨l, hl⟩ : ∃ l, ep.data = '/' :: l := by
    rcases hv.1 with h0 | h0 | h0
    · exact absurd h0 hne
    · exact absurd h0 hstar
    · cases hd : ep.data with
      | nil => rw [hd] at h0; simp at h0
      | cons c cs =>
        rw [hd] at h0
        simp only [List.head?_cons, Option.some.injEq] at h0
        exact ⟨cs, by rw [h0]⟩
  rcases pathElements_cases l with ⟨h1, _⟩ | ⟨p, l', h1, h2, _⟩
  · rw [treeMatch_single ep l hl h1] at hm
    have hu := URLPath_single ep l hl hv.2
    by_cases c1 : l ≠ [] ∧ pathUnescape l = "login".data
    · rw [if_pos c1] at hm
      have he := Option.some.inj hm
      subst he
      refine ⟨fun _ => ?_, (fun h => HandlerFunc.noConfusion h), (fun h => HandlerFunc.noConfusion h)⟩
      rw [hu, c1.2]
    · rw [if_neg c1] at hm
      by_cases c2 : l ≠ [] ∧ pathUnescape l = "admin".data
      · rw [if_pos c2] at hm
        have he := Option.some.inj hm
        subst he
        refine ⟨(fun h => HandlerFunc.noConfusion h), fun _ => ?_, (fun h => HandlerFunc.noConfusion h)⟩
        rw [hu, c2.2]
      · rw [if_neg c2] at hm
        have he := Option.some.inj hm
        subst he
        exact ⟨(fun h => HandlerFunc.noConfusion h), (fun h => HandlerFunc.noConfusion h), (fun h => HandlerFunc.noConfusion h)⟩
  · subst h2
    rw [treeMatch_multi ep p l' hl h1] at hm
    obtain ⟨u', hu⟩ := URLPath_multi ep p l' hl hv.2
    by_cases c1 : pathUnescape p = "static".data
    · rw [if_pos c1] at hm
      have he := Option.some.inj hm
      subst he
      refine ⟨(fun h => HandlerFunc.noConfusion h), (fun h => HandlerFunc.noConfusion h), fun _ => ?_⟩
      rw [hu, c1]
      exact ⟨u', rfl⟩
    · rw [if_neg c1] at hm
      have he := Option.some.inj hm
      subst he
      exact ⟨(fun h => HandlerFunc.noConfusion h), (fun h => HandlerFunc.noConfusion h), (fun h => HandlerFunc.noConfusion h)⟩

theorem matchOrRedirect_ok (mux : ServeMux) (path : String) (u : Option String)
    (n : Option Entry) (h : mux.matchOrRedirect path u = Except.ok n) :
    n = mux.treeMatch path := by
  unfold ServeMux.matchOrRedirect at h
  cases u with
  | none => exact (Except.ok.inj h).symm
  | some uPath =>
    simp only at h
    split at h
    · split at h
      · cases h
      · exact (Except.ok.inj h).symm
    · exact (Except.ok.inj h).symm

theorem nodeRoute_handler (n : Option Entry) (h : HandlerFunc)
    (hn : nodeRoute n = Route.handler h) : ∃ e, n = some e ∧ e.handler = h := by
  cases n with
  | none => cases hn
  | some e => exact ⟨e, rfl, Route.handler.inj hn⟩

/-- A request that reaches a handler reaches the one that the tree matches on its
escaped path. -/
theorem dispatch_handler (method requestURI ep : String) (h : HandlerFunc)
    (hd : dispatch method requestURI ep = Route.handler h) :
    ∃ e, mainMux.treeMatch ep = some e ∧ e.handler = h := by
  unfold dispatch at hd
  by_cases hu : requestURI = "*"
  · rw [if_pos hu] at hd
    split at hd <;> cases hd
  · rw [if_neg hu] at hd
    unfold ServeMux.findHandler at hd
    by_cases hm : method = "CONNECT"
    · rw [if_pos hm] at hd
      cases h1 : mainMux.matchOrRedirect ep (some (URLPath ep)) with
      | error u => rw [h1] at hd; cases hd
      | ok n1 =>
        rw [h1] at hd
        cases h2 : mainMux.matchOrRedirect ep none with
        | error u => rw [h2] at hd; cases hd
        | ok n =>
          rw [h2] at hd
          obtain ⟨e, he, hh⟩ := nodeRoute_handler n h hd
          have := matchOrRedirect_ok mainMux ep none n h2
          exact ⟨e, by rw [← this, he], hh⟩
    · rw [if_neg hm] at hd
      cases h1 : mainMux.matchOrRedirect (cleanPath ep) (some (URLPath ep)) with
      | error u => simp only [h1] at hd; cases hd
      | ok n =>
        simp only [h1] at hd
        by_cases hc : cleanPath ep = ep
        · rw [if_neg (not_not.mpr hc)] at hd
          obtain ⟨e, he, hh⟩ := nodeRoute_handler n h hd
          have := matchOrRedirect_ok mainMux (cleanPath ep) _ n h1
          rw [hc] at this
          exact ⟨e, by rw [← this, he], hh⟩
        · rw [if_pos hc] at hd
          cases hd

theorem exactMatch_trailing (e : Entry) (path : String) (l : List Char)
    (hpath : path.data = '/' :: (l ++ ['/']))
    (hlast : e.segments.getLast? = some Segment.multi) :
    exactMatch (some e) path = decide (e.segments.length = l.count '/' + 2) := by
  unfold exactMatch
  have h1 : path.data.getLast? = some '/' := by
    rw [hpath, ← List.cons_append, List.getLast?_append]
    rfl
  have h2 : path.data.count '/' = l.count '/' + 2 := by
    rw [hpath]
    simp
  simp only [hlast, ne_eq, not_true_eq_false, if_false, h1, and_false, h2]

/-- The mux of `main` redirects to the path with a slash added only a path of one
segment that reads `static`. -/
theorem matchOrRedirect_main (path : String) (l : List Char) (u : String)
    (h : path.data = '/' :: l)
    (hs : ¬ (pathElements l = [l] ∧ pathUnescape l = "static".data)) :
    mainMux.matchOrRedirect path (some u) = Except.ok (mainMux.treeMatch path) := by
  have hd : (path ++ "/").data = '/' :: (l ++ ['/']) := by
    rw [String.data_append, h]
    rfl
  have hex : exactMatch (mainMux.treeMatch (path ++ "/")) (path ++ "/") = false := by
    rcases pathElements_cases l with ⟨h1, hn⟩ | ⟨p, l', h1, h2, hp⟩
    · have hne : ¬ pathUnescape l = "static".data := fun hx => hs ⟨h1, hx⟩
      rw [treeMatch_multi (path ++ "/") l [] hd (pathElements_append l [] hn), if_neg hne,
        exactMatch_trailing ⟨[Segment.multi], [Segment.multi], HandlerFunc.serveIndex⟩
          _ l hd rfl]
      simp
    · have hd' : (path ++ "/").data = '/' :: (p ++ '/' :: (l' ++ ['/'])) := by
        rw [hd, h2]; simp
      have hc : l.count '/' = p.count '/' + (l'.count '/' + 1) := by
        rw [h2]; simp
      rw [treeMatch_multi (path ++ "/") p (l' ++ ['/']) hd'
        (pathElements_append p (l' ++ ['/']) hp)]
      split
      · rw [exactMatch_trailing
          ⟨[Segment.multi], [Segment.lit "static", Segment.multi], HandlerFunc.serveStatic⟩
          _ l hd rfl, hc]
        simp
      · rw [exactMatch_trailing ⟨[Segment.multi], [Segment.multi], HandlerFunc.serveIndex⟩
          _ l hd rfl, hc]
        simp
  unfold ServeMux.matchOrRedirect
  simp only [hex, Bool.false_eq_true, if_false]
  split <;> rfl

/-- A request other than `CONNECT` and not for `*`, whose escaped path is clean
and is not the one segment `static`, reaches the handler that the tree
matches. -/
theorem dispatch_clean (method requestURI ep : String) (l : List Char)
    (hm : method ≠ "CONNECT") (hu : requestURI ≠ "*") (hc : cleanPath ep = ep)
    (h : ep.data = '/' :: l)
    (hs : ¬ (pathElements l = [l] ∧ pathUnescape l = "static".data)) :
    dispatch method requestURI ep = nodeRoute (mainMux.treeMatch ep) := by
  unfold dispatch ServeMux.findHandler
  rw [if_neg hu, if_neg hm]
  simp only [hc, matchOrRedirect_main ep l _ h hs, ne_eq, not_true_eq_false, if_false]

theorem sliceFrom_static (rest : String) :
    sliceFrom ("/static/" ++ rest) "/static/".utf8ByteSize = some rest := by
  have hx := String.extract_of_valid "/static/".data rest.data []
  have hlen : String.utf8Len "/static/".data = 8 := by decide
  have hsz : "/static/".utf8ByteSize = 8 := by decide
  unfold sliceFrom
  rw [hsz]
  have hle : 8 ≤ ("/static/" ++ rest).utf8ByteSize := by
    show 8 ≤ String.utf8Len ("/static/" ++ rest).data
    rw [String.data_append, String.utf8Len_append, hlen]
    omega
  rw [if_pos hle]
  congr 1
  have hend : ("/static/" ++ rest).endPos = ⟨String.utf8Len "/static/".data + String.utf8Len rest.data⟩ := by
    show (⟨String.utf8Len ("/static/" ++ rest).data⟩ : String.Pos) = _
    rw [String.data_append, String.utf8Len_append]
  rw [hend]
  rw [hlen] at hx ⊢
  simpa using hx

/-- C10: for a request path that starts with "/static/", serveStatic does not
panic; if the rest of the path names no readable file under static/ in the
embedded set the response is the 404; otherwise the body is exactly the bytes
of that file and the Content-Type is the MIME type looked up from the
extension of the rest, or application/octet-stream when the lookup gives the
empty string. -/
theorem serveStatic_spec (env : Env) (r : Request) (rest : String)
    (h : r.Path = "/static/" ++ rest) :
    (env.ReadFile ("static/" ++ rest) = none →
      serveStatic env r = some (NotFound Response.new) ∧
        (NotFound Response.new).Status = 404) ∧
    (∀ data, env.ReadFile ("static/" ++ rest) = some data →
      ∃ w, serveStatic env r = some w ∧ w.Status = 200 ∧ w.Body = Body.bytes data ∧
        w.ContentType = some
          (if env.TypeByExtension (Ext rest) = "" then "application/octet-stream"
           else env.TypeByExtension (Ext rest))) := by
  unfold serveStatic
  rw [h, sliceFrom_static rest]
  constructor
  · intro hn
    simp [hn, NotFound, StatusNotFound]
  · intro data hd
    simp [hd, Response.new]

theorem serveStatic_spec_witness :
    serveStatic demoEnv ⟨"GET", "/static/nope.txt", [], []⟩ = some (NotFound Response.new) ∧
    ∃ w, serveStatic demoEnv ⟨"GET", "/static/style.css", [], []⟩ = some w ∧
      w.Status = 200 ∧ w.Body = Body.bytes [98, 111] ∧
      w.ContentType = some "text/css; charset=utf-8" :=
  ⟨((serveStatic_spec demoEnv ⟨"GET", "/static/nope.txt", [], []⟩ "nope.txt" (by decide)).1
      (by decide)).1,
   (serveStatic_spec demoEnv ⟨"GET", "/static/style.css", [], []⟩ "style.css" (by decide)).2
      [98, 111] (by decide)⟩

end SimpleGoWebServer
